import Mathlib

/-!
Verification of the request-handling core of go-simple-upload-server.

The definitions below are a shallow embedding of the Go sources:
  * `server.go` (package simpleuploadserver): `Server.Start` route table,
    `processUpload`, `handlePost`, `handlePut`, `handleGet`, `handleOptions`,
    `authenticationMiddleware`, `writeUnauthorized`, `handleNotFound`,
    `handleMethodNotAllowed`, `getPathFromURL`, `parseBoolishValue`.
  * `naming.go`: `FileNamingStrategy`, `UUIDStrategy`, `SHA256Strategy`,
    `strategies`, `DefaultNamingStrategy`, `ResolveFileNamingStrategy`.

Modelling conventions:
  * Bytes are `Nat` values (< 256 in practice; no arithmetic depends on that).
  * The afero `BasePathFs` file tree is a function from cleaned path
    components (`List String`) to entries; `filepath.Clean`/`Join`
    normalisation under the base path is modelled by splitting a slash path
    into its nonempty components, which identifies `/x` and `x` exactly as
    the Go filesystem layer does ("." and ".." segments are out of scope).
  * A multipart form file is a byte list plus a read cursor; this models the
    shared read position of the `multipart.File` handle that
    `http.MaxBytesReader`, the naming strategies and `io.Copy` all see.
  * `uuid.NewString()` is external randomness; it enters the model as an
    explicit argument threaded to the naming strategy.
  * A Go `nil`-function invocation (resolving an unknown naming strategy and
    calling it) is modelled as the `none`/`crash` outcome.
-/

namespace SimpleUpload

/-! ## SHA-256 (crypto/sha256, as consumed by SHA256Strategy) -/

/-- Truncation to a 32-bit word. -/
def w32 (x : Nat) : Nat := x % 4294967296

/-- 32-bit rotate right. -/
def rotr (n x : Nat) : Nat := w32 ((x >>> n) ||| (x <<< (32 - n)))

def bsig0 (x : Nat) : Nat := (rotr 2 x) ^^^ (rotr 13 x) ^^^ (rotr 22 x)

def bsig1 (x : Nat) : Nat := (rotr 6 x) ^^^ (rotr 11 x) ^^^ (rotr 25 x)

def ssig0 (x : Nat) : Nat := (rotr 7 x) ^^^ (rotr 18 x) ^^^ (x >>> 3)

def ssig1 (x : Nat) : Nat := (rotr 17 x) ^^^ (rotr 19 x) ^^^ (x >>> 10)

def chF (x y z : Nat) : Nat := (x &&& y) ^^^ ((x ^^^ 4294967295) &&& z)

def majF (x y z : Nat) : Nat := (x &&& y) ^^^ (x &&& z) ^^^ (y &&& z)

def sha256K : List Nat :=
  [1116352408, 1899447441, 3049323471, 3921009573,
   961987163, 1508970993, 2453635748, 2870763221,
   3624381080, 310598401, 607225278, 1426881987,
   1925078388, 2162078206, 2614888103, 3248222580,
   3835390401, 4022224774, 264347078, 604807628,
   770255983, 1249150122, 1555081692, 1996064986,
   2554220882, 2821834349, 2952996808, 3210313671,
   3336571891, 3584528711, 113926993, 338241895,
   666307205, 773529912, 1294757372, 1396182291,
   1695183700, 1986661051, 2177026350, 2456956037,
   2730485921, 2820302411, 3259730800, 3345764771,
   3516065817, 3600352804, 4094571909, 275423344,
   430227734, 506948616, 659060556, 883997877,
   958139571, 1322822218, 1537002063, 1747873779,
   1955562222, 2024104815, 2227730452, 2361852424,
   2428436474, 2756734187, 3204031479, 3329325298]

/-- Big-endian encoding of a value into 8 bytes (the length field of padding). -/
def be8 (n : Nat) : List Nat :=
  [w32 (n >>> 56) % 256, (n >>> 48) % 256, (n >>> 40) % 256, (n >>> 32) % 256,
   (n >>> 24) % 256, (n >>> 16) % 256, (n >>> 8) % 256, n % 256]

/-- SHA-256 message padding: 0x80, zeros, 64-bit big-endian bit length. -/
def sha256pad (msg : List Nat) : List Nat :=
  let L := msg.length
  let zeros := (119 - L % 64) % 64
  msg ++ [128] ++ List.replicate zeros 0 ++ be8 (L * 8)

/-- Split a byte list into 64-byte blocks (the fuel, at least the number of
blocks, makes the recursion structural). -/
def chunks64F : Nat → List Nat → List (List Nat)
  | 0, _ => []
  | _, [] => []
  | fuel + 1, a :: rest => (a :: rest).take 64 :: chunks64F fuel ((a :: rest).drop 64)

def chunks64 (l : List Nat) : List (List Nat) := chunks64F l.length l

/-- Big-endian 4-byte groups to 32-bit words. -/
def beWords : List Nat → List Nat
  | b0 :: b1 :: b2 :: b3 :: rest =>
      ((b0 <<< 24) ||| (b1 <<< 16) ||| (b2 <<< 8) ||| b3) :: beWords rest
  | _ => []

/-- Extend the 16 block words to the 64-entry message schedule. -/
def extendSchedule (ws : List Nat) : List Nat :=
  (List.range 48).foldl
    (fun w _ =>
      let n := w.length
      w ++ [w32 (w.getD (n - 16) 0 + ssig0 (w.getD (n - 15) 0) +
                 w.getD (n - 7) 0 + ssig1 (w.getD (n - 2) 0))])
    ws

structure Hash8 where
  a : Nat
  b : Nat
  c : Nat
  d : Nat
  e : Nat
  f : Nat
  g : Nat
  hh : Nat
deriving DecidableEq

def sha256H0 : Hash8 :=
  ⟨1779033703, 3144134277, 1013904242, 2773480762,
   1359893119, 2600822924, 528734635, 1541459225⟩

def sha256round (st : Hash8) (ki wi : Nat) : Hash8 :=
  let t1 := w32 (st.hh + bsig1 st.e + chF st.e st.f st.g + ki + wi)
  let t2 := w32 (bsig0 st.a + majF st.a st.b st.c)
  ⟨w32 (t1 + t2), st.a, st.b, st.c, w32 (st.d + t1), st.e, st.f, st.g⟩

def sha256chunk (hs : Hash8) (chunk : List Nat) : Hash8 :=
  let ws := extendSchedule (beWords chunk)
  let st := (List.range 64).foldl
    (fun st i => sha256round st (sha256K.getD i 0) (ws.getD i 0)) hs
  ⟨w32 (hs.a + st.a), w32 (hs.b + st.b), w32 (hs.c + st.c), w32 (hs.d + st.d),
   w32 (hs.e + st.e), w32 (hs.f + st.f), w32 (hs.g + st.g), w32 (hs.hh + st.hh)⟩

def hexDigit (n : Nat) : Char := if n < 10 then Char.ofNat (48 + n) else Char.ofNat (87 + n)

/-- Lowercase hex of a 32-bit word, 8 digits. -/
def hex8 (x : Nat) : String :=
  String.mk ((List.range 8).map (fun i => hexDigit ((x >>> ((7 - i) * 4)) % 16)))

/-- `fmt.Sprintf("%x", sha256.Sum(...))`: lowercase hex digest of a byte list. -/
def sha256hex (msg : List Nat) : String :=
  let hs := (chunks64 (sha256pad msg)).foldl sha256chunk sha256H0
  hex8 hs.a ++ hex8 hs.b ++ hex8 hs.c ++ hex8 hs.d ++
  hex8 hs.e ++ hex8 hs.f ++ hex8 hs.g ++ hex8 hs.hh

/-! ## String helpers

Kernel-reducible models of the Go string operations the server uses
(`strings.HasPrefix`, slicing off a prefix, `strings.ToLower`), defined on
the character list of a `String`; on the ASCII strings this server handles
they agree with the byte-level Go functions. -/

/-- `strings.HasPrefix`. -/
def strStartsWith (s pre : String) : Bool := pre.data.isPrefixOf s.data

/-- Dropping the first `n` characters (Go slicing `s[n:]` on ASCII). -/
def strDrop (s : String) (n : Nat) : String := String.mk (s.data.drop n)

/-- `strings.ToLower`. -/
def strToLower (s : String) : String := String.mk (s.data.map Char.toLower)

/-! ## Filesystem model (afero.BasePathFs file tree) -/

/-- A filesystem entry: a regular file with its byte content, or a directory. -/
inductive FsEntry where
  | file (content : List Nat) : FsEntry
  | dir : FsEntry
deriving DecidableEq

/-- The document-root file tree, keyed by cleaned path components. -/
def Fs : Type := List String → Option FsEntry

/-- The empty document root. -/
def emptyFs : Fs := fun _ => none

/-- Point update of the file tree. -/
def updateFs (fs : Fs) (p : List String) (e : FsEntry) : Fs :=
  fun q => if q = p then some e else fs q

/-- Split a character list at `'/'` boundaries. -/
def splitSlash : List Char → List Char → List String
  | [], acc => [String.mk acc.reverse]
  | c :: cs, acc =>
    if c = '/' then String.mk acc.reverse :: splitSlash cs []
    else splitSlash cs (c :: acc)

/-- `filepath.Clean`/`Join` normalisation beneath the base path: the nonempty
slash-separated components of a path. Identifies `/x` and `x` (and collapses
repeated slashes) exactly as the Go path layer does for the paths this server
builds; `.`/`..` segments are out of scope. -/
def cleanPath (p : String) : List String := (splitSlash p.data []).filter (fun c => c ≠ "")

/-- Entry lookup: the empty component list is the document root itself,
which always exists as a directory in the backing filesystem. -/
def lookupFs (fs : Fs) (p : List String) : Option FsEntry :=
  if p = [] then some FsEntry.dir else fs p

/-- `afero.Exists`: true when the path names a file or a directory. -/
def aferoExists (fs : Fs) (p : String) : Bool := (lookupFs fs (cleanPath p)).isSome

def isFileAt (fs : Fs) (p : List String) : Prop :=
  ∃ c, fs p = some (FsEntry.file c)

instance (fs : Fs) (p : List String) : Decidable (isFileAt fs p) := by
  unfold isFileAt
  match h : fs p with
  | some (FsEntry.file c) => exact isTrue ⟨c, rfl⟩
  | some FsEntry.dir => exact isFalse (by simp)
  | none => exact isFalse (by simp)

/-- The worker of `MkdirAll`: create each missing directory along
`sofar ++ rest`, left to right; fail (Go `ENOTDIR`) when a component already
exists as a regular file. Returns the (possibly partially extended) tree and a
success flag. -/
def mkdirIn (fs : Fs) (sofar : List String) : List String → Fs × Bool
  | [] => (fs, true)
  | d :: rest =>
    match fs (sofar ++ [d]) with
    | some (FsEntry.file _) => (fs, false)
    | some FsEntry.dir => mkdirIn fs (sofar ++ [d]) rest
    | none => mkdirIn (updateFs fs (sofar ++ [d]) FsEntry.dir) (sofar ++ [d]) rest

/-- `s.fs.MkdirAll(dirsPath, 0755)` on the cleaned components of `dirsPath`. -/
def mkdirAll (fs : Fs) (dir : List String) : Fs × Bool := mkdirIn fs [] dir

/-- `s.fs.OpenFile(path, O_WRONLY|O_CREATE|O_TRUNC, 0666)`: fails when the
entry is a directory, otherwise creates/truncates the file. -/
def openFileTrunc (fs : Fs) (p : List String) : Option Fs :=
  match lookupFs fs p with
  | some FsEntry.dir => none
  | _ => some (updateFs fs p (FsEntry.file []))

/-! ## Naming strategies (naming.go) -/

/-- A multipart form file: the uploaded bytes and the shared read cursor of
the `multipart.File` handle. -/
structure FormFile where
  content : List Nat
  pos : Nat
deriving DecidableEq

/-- `type FileNamingStrategy func(multipart.File, *multipart.FileHeader) (string, error)`.
The extra `String` argument is the value produced by `uuid.NewString()`
(external randomness made explicit); neither concrete strategy can return a
non-nil error, so no error component is modelled. The strategy returns the
generated name and the form file with its cursor as the strategy left it. -/
def FileNamingStrategy : Type := FormFile → String → String × FormFile

/-- `UUIDStrategy`: returns `uuid.NewString()`; does not read the file. -/
def UUIDStrategy : FileNamingStrategy := fun file u => (u, file)

/-- `SHA256Strategy`: `io.Copy(h, file)` reads the file from its current
cursor to EOF (leaving the cursor at EOF) and the name is the hex digest. -/
def SHA256Strategy : FileNamingStrategy := fun file _ =>
  (sha256hex (file.content.drop file.pos), ⟨file.content, file.content.length⟩)

def strategies : List (String × FileNamingStrategy) :=
  [("uuid", UUIDStrategy), ("sha256", SHA256Strategy)]

def DefaultNamingStrategy : FileNamingStrategy := UUIDStrategy

/-- `ResolveFileNamingStrategy`: the empty name resolves to the default, any
other name is looked up lowercased in `strategies`; a missing key is Go's
`nil` function value, modelled as `none`. -/
def ResolveFileNamingStrategy (name : String) : Option FileNamingStrategy :=
  if name = "" then some DefaultNamingStrategy
  else (strategies.find? (fun kv => kv.1 = strToLower name)).map (fun kv => kv.2)

/-! ## Server configuration (ServerConfig) -/

structure ServerConfig where
  addr : String
  documentRoot : String
  enableCORS : Bool
  maxUploadSize : Nat
  fileNamingStrategy : String
  shutdownTimeout : Nat
  enableAuth : Bool
  readOnlyTokens : List String
  readWriteTokens : List String

/-! ## Requests and responses -/

inductive Method where
  | get | head | post | put | options | delete
  | other (verb : String)
deriving DecidableEq

def methodStr : Method → String
  | Method.get => "GET"
  | Method.head => "HEAD"
  | Method.post => "POST"
  | Method.put => "PUT"
  | Method.options => "OPTIONS"
  | Method.delete => "DELETE"
  | Method.other v => v

/-- An inbound HTTP request, restricted to the parts the core reads. Header
and query lookups that Go reports as the empty string when absent are plain
strings here. `otherQuery` is every query parameter besides `token` and
`overwrite`. -/
structure Request where
  method : Method
  urlPath : String
  authHeader : String
  queryToken : String
  queryOverwrite : String
  otherQuery : List (String × String)
  formFilename : String
  formFile : FormFile
deriving DecidableEq

/-- The observable response: status, JSON envelope body, raw file body,
and the headers the claims mention. -/
structure Response where
  status : Nat
  jsonBody : Option String
  rawBody : Option (List Nat)
  contentLength : Option Nat
  allowHeader : Option String
  acamHeader : Option String
deriving DecidableEq

def jsonResponse (status : Nat) (body : String) : Response :=
  ⟨status, some body, none, none, none, none⟩

/-- `json.Marshal(ErrorResult{false, msg})`. -/
def errorEnvelope (msg : String) : String :=
  "\x7b\"ok\":false,\"error\":\"" ++ msg ++ "\"\x7d"

/-- `json.Marshal(SuccessfullyUploadedResult{true, path})`. -/
def successEnvelope (path : String) : String :=
  "\x7b\"ok\":true,\"path\":\"" ++ path ++ "\"\x7d"

/-- `parseBoolishValue`. -/
def parseBoolishValue (s : String) : Bool :=
  strToLower s = "yes" ∨ strToLower s = "true" ∨ strToLower s = "1"

/-- `getPathFromURL`: the regex `^/files/(.+)$` capture, or `""`. -/
def getPathFromURL (p : String) : String :=
  if strStartsWith p "/files/" ∧ strDrop p 7 ≠ "" then strDrop p 7 else ""

/-! ## Upload pipeline (processUpload) -/

/-- One handler exit: `(status, destPath, error)` from `processUpload`,
together with the file tree it leaves behind. -/
inductive UploadOutcome where
  | ok (destPath : String) (fs : Fs) : UploadOutcome
  | err (status : Nat) (msg : String) (fs : Fs) : UploadOutcome

/-- Lines 246-259 of `processUpload`: destination resolution. On POST
(`path0 = ""`) with an empty multipart filename the configured naming
strategy is invoked with no nil check — an unknown strategy is a `nil`
function call, i.e. `none` (a panic in Go). -/
def resolveDest (cfg : ServerConfig) (file : FormFile) (filename0 uuid path0 : String) :
    Option (String × FormFile) :=
  if path0 = "" then
    if filename0 = "" then
      match ResolveFileNamingStrategy cfg.fileNamingStrategy with
      | none => none
      | some namer =>
        let r := namer file uuid
        some ("/" ++ r.1, r.2)
    else some ("/" ++ filename0, file)
  else some (path0, file)

/-- `"/files"` plus the destination path with exactly one leading slash
(lines 292-296). -/
def renderDestPath (path : String) : String :=
  "/files" ++ (if strStartsWith path "/" then path else "/" ++ path)

/-- `processUpload`. The `uuid` argument is the fresh `uuid.NewString()`
value; `path0` is the explicit path (`""` on POST). The copy models
`io.Copy` through `http.MaxBytesReader(w, srcFile, s.MaxUploadSize)`: it
reads from the form-file cursor, transfers at most `maxUploadSize` bytes to
the opened destination, and fails with the 413 outcome when more bytes
remain. `none` is the nil-strategy panic. -/
def processUpload (cfg : ServerConfig) (fs : Fs) (r : Request) (uuid : String)
    (path0 : String) : Option UploadOutcome :=
  let allowOverwrite := parseBoolishValue r.queryOverwrite
  match resolveDest cfg r.formFile r.formFilename uuid path0 with
  | none => none
  | some (path, file1) =>
    if aferoExists fs path && !allowOverwrite then
      some (UploadOutcome.err 409 "the file already exists" fs)
    else
      let k := cleanPath path
      match mkdirAll fs k.dropLast with
      | (fs1, false) => some (UploadOutcome.err 500 "cannot create directories" fs1)
      | (fs1, true) =>
        match openFileTrunc fs1 k with
        | none => some (UploadOutcome.err 500 "cannot open file" fs1)
        | some fs2 =>
          let avail := file1.content.drop file1.pos
          if avail.length ≤ cfg.maxUploadSize then
            some (UploadOutcome.ok (renderDestPath path)
              (updateFs fs2 k (FsEntry.file avail)))
          else
            some (UploadOutcome.err 413 "file size limit exceeded"
              (updateFs fs2 k (FsEntry.file (avail.take cfg.maxUploadSize))))

/-! ## Handlers -/

/-- `handlePost` composed with the `handle` envelope wrapper. -/
def handlePost (cfg : ServerConfig) (fs : Fs) (r : Request) (uuid : String) :
    Option (Response × Fs) :=
  match processUpload cfg fs r uuid "" with
  | none => none
  | some (UploadOutcome.ok d fs') => some (jsonResponse 201 (successEnvelope d), fs')
  | some (UploadOutcome.err s m fs') => some (jsonResponse s (errorEnvelope m), fs')

/-- `handlePut` composed with the `handle` envelope wrapper. -/
def handlePut (cfg : ServerConfig) (fs : Fs) (r : Request) (uuid : String) :
    Option (Response × Fs) :=
  let path := getPathFromURL r.urlPath
  if path = "" then
    some (jsonResponse 405 (errorEnvelope "PUT is accepted on /files/:name"), fs)
  else
    match processUpload cfg fs r uuid path with
    | none => none
    | some (UploadOutcome.ok d fs') => some (jsonResponse 201 (successEnvelope d), fs')
    | some (UploadOutcome.err s m fs') => some (jsonResponse s (errorEnvelope m), fs')

/-- `handleGet` (serves HEAD too; `http.ServeContent` sets Content-Length
to the file size and writes no body on HEAD). -/
def handleGet (fs : Fs) (r : Request) : Response :=
  let requestPath := getPathFromURL r.urlPath
  if requestPath = "" then jsonResponse 404 (errorEnvelope "file not found")
  else
    match lookupFs fs (cleanPath requestPath) with
    | none => jsonResponse 404 (errorEnvelope "file not found")
    | some FsEntry.dir => jsonResponse 404 (errorEnvelope (requestPath ++ " is a directory"))
    | some (FsEntry.file content) =>
      ⟨200, none, some (if r.method = Method.head then [] else content),
       some content.length, none, none⟩

/-- `handleOptions`: 204 with `Access-Control-Allow-Methods`. -/
def handleOptions (r : Request) : Response :=
  let allowedMethods :=
    if r.urlPath = "/upload" then "POST"
    else if strStartsWith r.urlPath "/files" then "GET, PUT, HEAD"
    else ""
  ⟨204, none, none, none, none, some allowedMethods⟩

/-- `handleNotFound` (the mux NotFoundHandler). -/
def handleNotFound : Response := jsonResponse 404 (errorEnvelope "not found")

/-- `handleMethodNotAllowed` (the mux MethodNotAllowedHandler). -/
def handleMethodNotAllowed (r : Request) : Response :=
  let ep :=
    if r.urlPath = "/upload" then ("/upload", "POST")
    else if strStartsWith r.urlPath "/files" then ("/files", "GET, PUT")
    else ("", "")
  ⟨405, some (errorEnvelope (methodStr r.method ++ " is not allowed on " ++ ep.1)),
   none, none, some ep.2, none⟩

/-! ## Authentication middleware -/

/-- `strings.TrimPrefix(auth, "Bearer ")`. -/
def trimBearer (s : String) : String :=
  if strStartsWith s "Bearer " then strDrop s 7 else s

inductive AuthResult where
  | proceed (r : Request) : AuthResult
  | unauthorized : AuthResult
deriving DecidableEq

/-- `authenticationMiddleware`: OPTIONS is passed through untouched; the
token comes from the Authorization header when that is nonempty, otherwise
from the `token` query parameter; an accepted request is forwarded with the
Authorization header and the `token` query parameter deleted. -/
def authenticationMiddleware (cfg : ServerConfig) (r : Request) : AuthResult :=
  if r.method = Method.options then AuthResult.proceed r
  else
    let token :=
      if r.authHeader ≠ "" then trimBearer r.authHeader
      else if r.queryToken ≠ "" then r.queryToken
      else ""
    if token = "" then AuthResult.unauthorized
    else
      let allowedTokens := cfg.readWriteTokens ++
        (if r.method = Method.get ∨ r.method = Method.head then cfg.readOnlyTokens else [])
      if token ∈ allowedTokens then
        AuthResult.proceed { r with authHeader := "", queryToken := "" }
      else AuthResult.unauthorized

/-- `writeUnauthorized`: 401, JSON envelope except on HEAD. -/
def writeUnauthorized (r : Request) : Response :=
  ⟨401, if r.method = Method.head then none else some (errorEnvelope "unauthorized"),
   none, none, none, none⟩

/-! ## Router (Server.Start route table on a gorilla mux) -/

inductive Routed where
  | post | getHead | put | options | notFound | methodNotAllowed
deriving DecidableEq

/-- The route table: `POST|OPTIONS /upload` exactly, `GET|HEAD|PUT|OPTIONS`
on the `/files` path prefix; a matched path with an unregistered verb is a
method mismatch, an unmatched path falls to the NotFoundHandler. -/
def routeMatch (m : Method) (p : String) : Routed :=
  if p = "/upload" then
    if m = Method.post then Routed.post
    else if m = Method.options then Routed.options
    else Routed.methodNotAllowed
  else if strStartsWith p "/files" then
    if m = Method.get ∨ m = Method.head then Routed.getHead
    else if m = Method.put then Routed.put
    else if m = Method.options then Routed.options
    else Routed.methodNotAllowed
  else Routed.notFound

inductive ServeResult where
  | ok (resp : Response) (fs : Fs) : ServeResult
  | crash : ServeResult

def dispatch (cfg : ServerConfig) (fs : Fs) (r : Request) (uuid : String) :
    Routed → ServeResult
  | Routed.post =>
    match handlePost cfg fs r uuid with
    | none => ServeResult.crash
    | some (resp, fs') => ServeResult.ok resp fs'
  | Routed.getHead => ServeResult.ok (handleGet fs r) fs
  | Routed.put =>
    match handlePut cfg fs r uuid with
    | none => ServeResult.crash
    | some (resp, fs') => ServeResult.ok resp fs'
  | Routed.options => ServeResult.ok (handleOptions r) fs
  | Routed.notFound => ServeResult.ok handleNotFound fs
  | Routed.methodNotAllowed => ServeResult.ok (handleMethodNotAllowed r) fs

/-- net/http writes no response body to a HEAD request. -/
def stripBody (m : Method) (resp : Response) : Response :=
  if m = Method.head then { resp with jsonBody := none, rawBody := none } else resp

/-- One full request: mux dispatch (middleware wraps matched routes only —
the NotFound and MethodNotAllowed handlers are served without middleware),
then the HEAD body suppression of the http layer. -/
def serve (cfg : ServerConfig) (fs : Fs) (r : Request) (uuid : String) : ServeResult :=
  let t := routeMatch r.method r.urlPath
  let res :=
    match t with
    | Routed.notFound => dispatch cfg fs r uuid Routed.notFound
    | Routed.methodNotAllowed => dispatch cfg fs r uuid Routed.methodNotAllowed
    | t' =>
      if cfg.enableAuth then
        match authenticationMiddleware cfg r with
        | AuthResult.unauthorized => ServeResult.ok (writeUnauthorized r) fs
        | AuthResult.proceed r' => dispatch cfg fs r' uuid t'
      else dispatch cfg fs r uuid t'
  match res with
  | ServeResult.crash => ServeResult.crash
  | ServeResult.ok resp fs' => ServeResult.ok (stripBody r.method resp) fs'

/-! ## Observers on serve results (for stating claims) -/

def serveStatus : ServeResult → Option Nat
  | ServeResult.ok resp _ => some resp.status
  | ServeResult.crash => none

def serveBody : ServeResult → Option (Option String)
  | ServeResult.ok resp _ => some resp.jsonBody
  | ServeResult.crash => none

def serveAllow : ServeResult → Option (Option String)
  | ServeResult.ok resp _ => some resp.allowHeader
  | ServeResult.crash => none

def serveFsAt (p : List String) : ServeResult → Option (Option FsEntry)
  | ServeResult.ok _ fs => some (fs p)
  | ServeResult.crash => none

/-! ## Helper lemmas -/

theorem lookupFs_ne_nil (fs : Fs) (p : List String) (h : p ≠ []) : lookupFs fs p = fs p := by
  simp [lookupFs, h]

theorem updateFs_self (fs : Fs) (p : List String) (e : FsEntry) :
    updateFs fs p e p = some e := by
  simp [updateFs]

theorem updateFs_other (fs : Fs) (p q : List String) (e : FsEntry) (h : q ≠ p) :
    updateFs fs p e q = fs q := by
  simp [updateFs, h]

theorem updateFs_updateFs (fs : Fs) (p : List String) (e1 e2 : FsEntry) :
    updateFs (updateFs fs p e1) p e2 = updateFs fs p e2 := by
  funext q
  by_cases h : q = p <;> simp [updateFs, h]

/-- Everything `mkdirIn` guarantees at once: it succeeds when no touched
component is an existing regular file; it only writes keys of bounded length
that extend `sofar`; every key it writes becomes a directory; and each
touched component is a directory afterwards. -/
theorem mkdirIn_spec (rest : List String) : ∀ (fs : Fs) (sofar : List String),
    (∀ m : Nat, m < rest.length → ¬ isFileAt fs (sofar ++ rest.take (m + 1))) →
    (mkdirIn fs sofar rest).2 = true ∧
    (∀ q, sofar.length + rest.length < q.length → (mkdirIn fs sofar rest).1 q = fs q) ∧
    (∀ q, q.length ≤ sofar.length → (mkdirIn fs sofar rest).1 q = fs q) ∧
    (∀ q, (mkdirIn fs sofar rest).1 q = fs q ∨ (mkdirIn fs sofar rest).1 q = some FsEntry.dir) ∧
    (∀ m : Nat, m < rest.length →
      (mkdirIn fs sofar rest).1 (sofar ++ rest.take (m + 1)) = some FsEntry.dir) := by
  induction rest with
  | nil =>
    intro fs sofar _
    refine ⟨rfl, ?_, ?_, ?_, ?_⟩ <;> simp [mkdirIn]
  | cons d rest ih =>
    intro fs sofar hnf
    have h0 : ¬ isFileAt fs (sofar ++ [d]) := by
      have := hnf 0 (by simp)
      simpa using this
    have hkeylen : (sofar ++ [d]).length = sofar.length + 1 := by simp
    have hshift : ∀ m : Nat, m < rest.length →
        sofar ++ (d :: rest).take (m + 2) = (sofar ++ [d]) ++ rest.take (m + 1) := by
      intro m _
      simp [List.take_succ_cons]
    cases hfd : fs (sofar ++ [d]) with
    | none =>
      have hstep : mkdirIn fs sofar (d :: rest) =
          mkdirIn (updateFs fs (sofar ++ [d]) FsEntry.dir) (sofar ++ [d]) rest := by
        simp [mkdirIn, hfd]
      set fs' := updateFs fs (sofar ++ [d]) FsEntry.dir with hfs'
      have hcond : ∀ m : Nat, m < rest.length →
          ¬ isFileAt fs' ((sofar ++ [d]) ++ rest.take (m + 1)) := by
        intro m hm
        by_cases hq : (sofar ++ [d]) ++ rest.take (m + 1) = sofar ++ [d]
        · rw [hq]
          simp [isFileAt, hfs', updateFs]
        · have := hnf (m + 1) (by simpa using Nat.succ_lt_succ hm)
          rw [hshift m hm] at this
          simp only [isFileAt, hfs']
          rw [updateFs_other fs (sofar ++ [d]) ((sofar ++ [d]) ++ rest.take (m + 1))
            FsEntry.dir hq]
          simpa [isFileAt] using this
      obtain ⟨hok, hlong, hshort, hdirs, hmade⟩ := ih fs' (sofar ++ [d]) hcond
      refine ⟨by rw [hstep]; exact hok, ?_, ?_, ?_, ?_⟩
      · intro q hq
        rw [hstep]
        have h1 : (sofar ++ [d]).length + rest.length < q.length := by
          simp only [List.length_cons] at hq
          omega
        rw [hlong q h1, hfs']
        apply updateFs_other
        intro he
        rw [he] at h1
        omega
      · intro q hq
        rw [hstep]
        have h1 : q.length ≤ (sofar ++ [d]).length := by rw [hkeylen]; omega
        rw [hshort q h1, hfs']
        apply updateFs_other
        intro he
        rw [he, hkeylen] at hq
        omega
      · intro q
        rw [hstep]
        rcases hdirs q with h | h
        · rw [h, hfs']
          by_cases hq : q = sofar ++ [d]
          · right
            rw [hq]
            exact updateFs_self fs (sofar ++ [d]) FsEntry.dir
          · left
            exact updateFs_other fs (sofar ++ [d]) q FsEntry.dir hq
        · right
          exact h
      · intro m hm
        rw [hstep]
        match m with
        | 0 =>
          have hq : sofar ++ (d :: rest).take 1 = sofar ++ [d] := by simp
          rw [hq]
          have h1 : (sofar ++ [d]).length ≤ (sofar ++ [d]).length := le_refl _
          rw [hshort (sofar ++ [d]) h1, hfs']
          exact updateFs_self fs (sofar ++ [d]) FsEntry.dir
        | m + 1 =>
          have hm' : m < rest.length := by simpa using Nat.lt_of_succ_lt_succ hm
          rw [hshift m hm']
          exact hmade m hm'
    | some e =>
      cases e with
      | file c =>
        exact absurd ⟨c, hfd⟩ h0
      | dir =>
        have hstep : mkdirIn fs sofar (d :: rest) = mkdirIn fs (sofar ++ [d]) rest := by
          simp [mkdirIn, hfd]
        have hcond : ∀ m : Nat, m < rest.length →
            ¬ isFileAt fs ((sofar ++ [d]) ++ rest.take (m + 1)) := by
          intro m hm
          have := hnf (m + 1) (by simpa using Nat.succ_lt_succ hm)
          rw [hshift m hm] at this
          exact this
        obtain ⟨hok, hlong, hshort, hdirs, hmade⟩ := ih fs (sofar ++ [d]) hcond
        refine ⟨by rw [hstep]; exact hok, ?_, ?_, ?_, ?_⟩
        · intro q hq
          rw [hstep]
          apply hlong
          simp only [List.length_cons] at hq
          omega
        · intro q hq
          rw [hstep]
          apply hshort
          rw [hkeylen]
          omega
        · intro q
          rw [hstep]
          exact hdirs q
        · intro m hm
          rw [hstep]
          match m with
          | 0 =>
            have hq : sofar ++ (d :: rest).take 1 = sofar ++ [d] := by simp
            rw [hq, hshort (sofar ++ [d]) (le_refl _)]
            exact hfd
          | m + 1 =>
            have hm' : m < rest.length := by simpa using Nat.lt_of_succ_lt_succ hm
            rw [hshift m hm']
            exact hmade m hm'

/-- The success path of `processUpload`: when the destination resolves, the
conflict check passes, no parent component is an existing regular file and
the destination itself is not a directory, the pipeline creates the parent
directories and writes the destination file — all of the available bytes
when they fit in `maxUploadSize`, and exactly the first `maxUploadSize`
bytes with the 413 outcome otherwise. -/
theorem processUpload_write (cfg : ServerConfig) (fs : Fs) (r : Request)
    (uuid path0 path : String) (file1 : FormFile)
    (hres : resolveDest cfg r.formFile r.formFilename uuid path0 = some (path, file1))
    (hnc : (aferoExists fs path && !parseBoolishValue r.queryOverwrite) = false)
    (hk : cleanPath path ≠ [])
    (hdirs : ∀ m : Nat, m < (cleanPath path).dropLast.length →
      ¬ isFileAt fs ((cleanPath path).dropLast.take (m + 1)))
    (hnotdir : fs (cleanPath path) ≠ some FsEntry.dir) :
    ∃ fs1 : Fs,
      (∀ m : Nat, m < (cleanPath path).dropLast.length →
        fs1 ((cleanPath path).dropLast.take (m + 1)) = some FsEntry.dir) ∧
      (∀ q : List String, (cleanPath path).dropLast.length < q.length → fs1 q = fs q) ∧
      processUpload cfg fs r uuid path0 = some (
        if (file1.content.drop file1.pos).length ≤ cfg.maxUploadSize then
          UploadOutcome.ok (renderDestPath path)
            (updateFs fs1 (cleanPath path) (FsEntry.file (file1.content.drop file1.pos)))
        else
          UploadOutcome.err 413 "file size limit exceeded"
            (updateFs fs1 (cleanPath path) (FsEntry.file
              ((file1.content.drop file1.pos).take cfg.maxUploadSize)))) := by
  obtain ⟨hok, hlong, hshort, hdori, hmade⟩ :=
    mkdirIn_spec (cleanPath path).dropLast fs [] (by
      intro m hm
      simpa using hdirs m hm)
  refine ⟨(mkdirIn fs [] (cleanPath path).dropLast).1, ?_, ?_, ?_⟩
  · intro m hm
    simpa using hmade m hm
  · intro q hq
    apply hlong
    simpa using hq
  · have hmk : mkdirAll fs (cleanPath path).dropLast =
        ((mkdirIn fs [] (cleanPath path).dropLast).1, true) := by
      unfold mkdirAll
      rw [← hok]
    have hklen : (cleanPath path).dropLast.length < (cleanPath path).length := by
      have h1 : (cleanPath path).length ≠ 0 := by
        simpa using hk
      simp only [List.length_dropLast]
      omega
    have hfk : (mkdirIn fs [] (cleanPath path).dropLast).1 (cleanPath path) =
        fs (cleanPath path) := by
      apply hlong
      simpa using hklen
    have hopen : openFileTrunc (mkdirIn fs [] (cleanPath path).dropLast).1 (cleanPath path) =
        some (updateFs (mkdirIn fs [] (cleanPath path).dropLast).1 (cleanPath path)
          (FsEntry.file [])) := by
      unfold openFileTrunc
      rw [lookupFs_ne_nil _ _ hk, hfk]
      cases hcase : fs (cleanPath path) with
      | none => rfl
      | some e =>
        cases e with
        | file c => rfl
        | dir => exact absurd hcase hnotdir
    simp only [processUpload, hres, hnc, Bool.false_eq_true, if_false, hmk, hopen,
      updateFs_updateFs]
    split <;> rfl

/-! ## Routing and middleware helper lemmas -/

theorem routeMatch_upload (m : Method) :
    routeMatch m "/upload" =
      (if m = Method.post then Routed.post
       else if m = Method.options then Routed.options
       else Routed.methodNotAllowed) := by
  simp [routeMatch]

theorem routeMatch_files (m : Method) (p : String) (h : strStartsWith p "/files" = true) :
    routeMatch m p =
      (if m = Method.get ∨ m = Method.head then Routed.getHead
       else if m = Method.put then Routed.put
       else if m = Method.options then Routed.options
       else Routed.methodNotAllowed) := by
  have hne : p ≠ "/upload" := by
    intro he
    rw [he] at h
    exact absurd h (by decide)
  simp [routeMatch, hne, h]

theorem routeMatch_none (m : Method) (p : String) (h1 : p ≠ "/upload")
    (h2 : strStartsWith p "/files" = false) : routeMatch m p = Routed.notFound := by
  simp [routeMatch, h1, h2]

/-- Suppressing the body leaves the status untouched. -/
theorem stripBody_status (m : Method) (resp : Response) :
    (stripBody m resp).status = resp.status := by
  unfold stripBody
  split <;> rfl

/-- A passed-through non-OPTIONS request was accepted with its credential
fields stripped. -/
theorem authMW_proceed_eq (cfg : ServerConfig) (r r' : Request)
    (hm : r.method ≠ Method.options)
    (h : authenticationMiddleware cfg r = AuthResult.proceed r') :
    r' = { r with authHeader := "", queryToken := "" } := by
  unfold authenticationMiddleware at h
  rw [if_neg hm] at h
  by_cases h0 : (if r.authHeader ≠ "" then trimBearer r.authHeader
      else if r.queryToken ≠ "" then r.queryToken else "") = ""
  · rw [if_pos h0] at h
    exact absurd h (by simp)
  · rw [if_neg h0] at h
    by_cases h1 : (if r.authHeader ≠ "" then trimBearer r.authHeader
        else if r.queryToken ≠ "" then r.queryToken else "") ∈ cfg.readWriteTokens ++
        (if r.method = Method.get ∨ r.method = Method.head then cfg.readOnlyTokens else [])
    · rw [if_pos h1] at h
      cases h
      rfl
    · rw [if_neg h1] at h
      exact absurd h (by simp)

/-- Acceptance through a nonempty Authorization header carrying a usable
token. -/
theorem authMW_pass (cfg : ServerConfig) (r : Request) (t : String)
    (hm : r.method ≠ Method.options)
    (hh : r.authHeader ≠ "") (ht : trimBearer r.authHeader = t) (htne : t ≠ "")
    (hin : t ∈ cfg.readWriteTokens ∨
      ((r.method = Method.get ∨ r.method = Method.head) ∧ t ∈ cfg.readOnlyTokens)) :
    authenticationMiddleware cfg r =
      AuthResult.proceed { r with authHeader := "", queryToken := "" } := by
  unfold authenticationMiddleware
  rw [if_neg hm, if_pos hh, ht, if_neg htne]
  rw [if_pos ?_]
  rcases hin with hrw | ⟨hgh, hro⟩
  · exact List.mem_append_left _ hrw
  · rw [if_pos hgh]
    exact List.mem_append_right _ hro

/-- Rejection of a credential-free non-OPTIONS request. -/
theorem authMW_noToken (cfg : ServerConfig) (r : Request)
    (hm : r.method ≠ Method.options) (hh : r.authHeader = "") (hq : r.queryToken = "") :
    authenticationMiddleware cfg r = AuthResult.unauthorized := by
  unfold authenticationMiddleware
  rw [if_neg hm]
  simp [hh, hq]

/-- Rejection of a POST/PUT whose header token is not a read-write token. -/
theorem authMW_reject_write (cfg : ServerConfig) (r : Request) (t : String)
    (hm : r.method = Method.post ∨ r.method = Method.put)
    (hh : r.authHeader ≠ "") (ht : trimBearer r.authHeader = t)
    (hnotin : t ∉ cfg.readWriteTokens) :
    authenticationMiddleware cfg r = AuthResult.unauthorized := by
  have hmo : r.method ≠ Method.options := by
    rcases hm with h | h <;> simp [h]
  have hgh : ¬ (r.method = Method.get ∨ r.method = Method.head) := by
    rcases hm with h | h <;> simp [h]
  unfold authenticationMiddleware
  rw [if_neg hmo, if_pos hh, ht]
  by_cases hte : t = ""
  · rw [if_pos hte]
  · rw [if_neg hte, if_neg ?_]
    rw [if_neg hgh]
    simpa using hnotin

/-! ## Concrete fixtures -/

def cfgNoAuth : ServerConfig :=
  ⟨"127.0.0.1:8080", "/opt/app", true, 16, "", 5000, false, [], []⟩

def cfgAuth : ServerConfig :=
  ⟨"127.0.0.1:8080", "/opt/app", true, 16, "", 5000, true,
   ["read-only-token"], ["read-write-token"]⟩

def cfgSha : ServerConfig :=
  ⟨"127.0.0.1:8080", "/opt/app", true, 1000, "sha256", 5000, false, [], []⟩

def cfgBadStrategy : ServerConfig :=
  ⟨"127.0.0.1:8080", "/opt/app", true, 1000, "bogus", 5000, false, [], []⟩

/-- Document root with `test.txt` (bytes `[9, 9]`) and `foo/bar.txt`
(bytes `[104, 105]`). -/
def fsWithTest : Fs :=
  updateFs (updateFs (updateFs emptyFs ["foo"] FsEntry.dir)
    ["foo", "bar.txt"] (FsEntry.file [104, 105])) ["test.txt"] (FsEntry.file [9, 9])

/-- An oversized (17-byte) PUT to the fresh path `/files/x.txt` under a
16-byte limit. -/
def reqC1big : Request :=
  ⟨Method.put, "/files/x.txt", "", "", "", [], "big.txt", ⟨List.replicate 17 65, 0⟩⟩

/-- An oversized PUT to `/files/test.txt`, which already exists, without the
overwrite flag. -/
def reqC1dup : Request :=
  ⟨Method.put, "/files/test.txt", "", "", "", [], "big.txt", ⟨List.replicate 17 65, 0⟩⟩

/-- A POST with an empty multipart filename and content `"hi"`. -/
def reqPostNoName : Request :=
  ⟨Method.post, "/upload", "", "", "", [], "", ⟨[104, 105], 0⟩⟩

/-- A GET for the unrouted path `/abc`. -/
def reqGetAbc : Request := ⟨Method.get, "/abc", "", "", "", [], "", ⟨[], 0⟩⟩

/-! ## Claim C1 -/

/-- C1, counterexample. The claim says an upload whose content exceeds
`max_upload_size` always answers 413 and leaves the destination file absent
or unchanged. On a 17-byte PUT to a fresh `/files/x.txt` under a 16-byte
limit the status is 413 but the destination file exists afterwards and holds
the first 16 uploaded bytes (it was absent before); and on an oversized PUT
to an already existing path without the overwrite flag the status is 409,
not 413. -/
theorem claim1_counterexample :
    serveStatus (serve cfgNoAuth emptyFs reqC1big "u") = some 413 ∧
    serveFsAt ["x.txt"] (serve cfgNoAuth emptyFs reqC1big "u") =
      some (some (FsEntry.file (List.replicate 16 65))) ∧
    serveFsAt ["x.txt"] (serve cfgNoAuth emptyFs reqC1big "u") ≠ some none ∧
    serveStatus (serve cfgNoAuth fsWithTest reqC1dup "u") = some 409 := by
  refine ⟨by decide, by decide, by decide, by decide⟩

/-- C1 (amended): when an upload whose available content exceeds
`max_upload_size` reaches the destination write — its destination resolves,
the conflict check passes, and no parent component blocks directory
creation — the outcome is 413 with the error `file size limit exceeded`,
and the destination file afterwards holds exactly the first
`max_upload_size` bytes of the content: a strict prefix, never the complete
oversized content. (If the destination already exists without the overwrite
flag the earlier conflict check answers 409 instead, and the file is
untouched.) -/
theorem claim1_amended (cfg : ServerConfig) (fs : Fs) (r : Request)
    (uuid path0 path : String) (file1 : FormFile)
    (hres : resolveDest cfg r.formFile r.formFilename uuid path0 = some (path, file1))
    (hbig : cfg.maxUploadSize < (file1.content.drop file1.pos).length)
    (hnc : (aferoExists fs path && !parseBoolishValue r.queryOverwrite) = false)
    (hk : cleanPath path ≠ [])
    (hdirs : ∀ m : Nat, m < (cleanPath path).dropLast.length →
      ¬ isFileAt fs ((cleanPath path).dropLast.take (m + 1)))
    (hnotdir : fs (cleanPath path) ≠ some FsEntry.dir) :
    ∃ fs' : Fs,
      processUpload cfg fs r uuid path0 =
        some (UploadOutcome.err 413 "file size limit exceeded" fs') ∧
      fs' (cleanPath path) =
        some (FsEntry.file ((file1.content.drop file1.pos).take cfg.maxUploadSize)) ∧
      (file1.content.drop file1.pos).take cfg.maxUploadSize ≠
        file1.content.drop file1.pos := by
  obtain ⟨fs1, hmade, hframe, heq⟩ :=
    processUpload_write cfg fs r uuid path0 path file1 hres hnc hk hdirs hnotdir
  rw [if_neg (not_le.2 hbig)] at heq
  refine ⟨updateFs fs1 (cleanPath path)
    (FsEntry.file ((file1.content.drop file1.pos).take cfg.maxUploadSize)), heq, ?_, ?_⟩
  · exact updateFs_self _ _ _
  · intro he
    have hlen := congrArg List.length he
    simp only [List.length_take] at hlen
    omega

/-- C1 witness: the amended statement at the concrete oversized PUT. -/
theorem claim1_witness :
    ∃ fs' : Fs,
      processUpload cfgNoAuth emptyFs reqC1big "u" "x.txt" =
        some (UploadOutcome.err 413 "file size limit exceeded" fs') ∧
      fs' (cleanPath "x.txt") =
        some (FsEntry.file ((reqC1big.formFile.content.drop reqC1big.formFile.pos).take
          cfgNoAuth.maxUploadSize)) ∧
      (reqC1big.formFile.content.drop reqC1big.formFile.pos).take cfgNoAuth.maxUploadSize ≠
        reqC1big.formFile.content.drop reqC1big.formFile.pos :=
  claim1_amended cfgNoAuth emptyFs reqC1big "u" "x.txt" "x.txt" reqC1big.formFile
    (by decide) (by decide) (by decide) (by decide)
    (by
      intro m hm
      rw [show (cleanPath "x.txt").dropLast.length = 0 from by decide] at hm
      omega)
    (by decide)

/-! ## Claim C2 -/

set_option maxRecDepth 200000 in
/-- C2: the code is wrong. With the configured `sha256` naming strategy and
an empty multipart filename, `SHA256Strategy` consumes the shared form-file
cursor to EOF to derive the name, and `processUpload` never rewinds it, so
the subsequent copy writes zero bytes: POSTing the two bytes `"hi"` answers
201 with the content-hash path, yet the stored file is empty rather than
byte-identical to the upload, and a later GET at the returned path yields no
bytes. -/
theorem claim2_code_bug :
    serveStatus (serve cfgSha emptyFs reqPostNoName "u") = some 201 ∧
    serveBody (serve cfgSha emptyFs reqPostNoName "u") =
      some (some (successEnvelope ("/files/" ++ sha256hex [104, 105]))) ∧
    serveFsAt [sha256hex [104, 105]] (serve cfgSha emptyFs reqPostNoName "u") =
      some (some (FsEntry.file [])) ∧
    serveFsAt [sha256hex [104, 105]] (serve cfgSha emptyFs reqPostNoName "u") ≠
      some (some (FsEntry.file [104, 105])) := by
  refine ⟨by decide, by decide, by decide, by decide⟩

/-! ## Claim C3 -/

/-- C3: an upload (POST or PUT) whose destination path already holds a file
is rejected with status 409 and the JSON error `the file already exists`
whenever the overwrite query value is not truthy, and the file tree is
returned exactly as it was: the existing bytes are untouched and no
directories are created. -/
theorem claim3_conflict (cfg : ServerConfig) (fs : Fs) (r : Request) (uuid : String)
    (how : parseBoolishValue r.queryOverwrite = false) :
    (∀ (path : String) (file1 : FormFile) (c : List Nat),
      resolveDest cfg r.formFile r.formFilename uuid "" = some (path, file1) →
      fs (cleanPath path) = some (FsEntry.file c) →
      handlePost cfg fs r uuid =
        some (jsonResponse 409 (errorEnvelope "the file already exists"), fs)) ∧
    (∀ c : List Nat, getPathFromURL r.urlPath ≠ "" →
      fs (cleanPath (getPathFromURL r.urlPath)) = some (FsEntry.file c) →
      handlePut cfg fs r uuid =
        some (jsonResponse 409 (errorEnvelope "the file already exists"), fs)) := by
  have key : ∀ (path0 path : String) (file1 : FormFile) (c : List Nat),
      resolveDest cfg r.formFile r.formFilename uuid path0 = some (path, file1) →
      fs (cleanPath path) = some (FsEntry.file c) →
      processUpload cfg fs r uuid path0 =
        some (UploadOutcome.err 409 "the file already exists" fs) := by
    intro path0 path file1 c hres hfs
    have hex : (aferoExists fs path && !parseBoolishValue r.queryOverwrite) = true := by
      rw [how]
      unfold aferoExists lookupFs
      split
      · rfl
      · simp [hfs]
    simp only [processUpload, hres, hex, if_true]
  constructor
  · intro path file1 c hres hfs
    simp only [handlePost, key "" path file1 c hres hfs]
  · intro c hne hfs
    have hres : resolveDest cfg r.formFile r.formFilename uuid (getPathFromURL r.urlPath) =
        some (getPathFromURL r.urlPath, r.formFile) := by
      simp [resolveDest, hne]
    simp only [handlePut, if_neg hne, key _ _ _ c hres hfs]

/-- C3 witness: a POST and a PUT aimed at the existing `test.txt`. -/
theorem claim3_witness :
    handlePost cfgNoAuth fsWithTest
      ⟨Method.post, "/upload", "", "", "", [], "test.txt", ⟨[1, 2], 0⟩⟩ "u" =
      some (jsonResponse 409 (errorEnvelope "the file already exists"), fsWithTest) ∧
    handlePut cfgNoAuth fsWithTest
      ⟨Method.put, "/files/test.txt", "", "", "", [], "x.txt", ⟨[1, 2], 0⟩⟩ "u" =
      some (jsonResponse 409 (errorEnvelope "the file already exists"), fsWithTest) := by
  constructor
  · exact (claim3_conflict cfgNoAuth fsWithTest
      ⟨Method.post, "/upload", "", "", "", [], "test.txt", ⟨[1, 2], 0⟩⟩ "u" (by decide)).1
      "/test.txt" ⟨[1, 2], 0⟩ [9, 9] (by decide) (by decide)
  · exact (claim3_conflict cfgNoAuth fsWithTest
      ⟨Method.put, "/files/test.txt", "", "", "", [], "x.txt", ⟨[1, 2], 0⟩⟩ "u" (by decide)).2
      [9, 9] (by decide) (by decide)

/-! ## Claim C4 -/

/-- C4, counterexample. The claim says unrouted paths answer 404 with the
body `{"ok":false,"error":"file not found"}`; the router's NotFoundHandler
actually writes `{"ok":false,"error":"not found"}`. -/
theorem claim4_counterexample :
    serveStatus (serve cfgNoAuth emptyFs reqGetAbc "u") = some 404 ∧
    serveBody (serve cfgNoAuth emptyFs reqGetAbc "u") =
      some (some (errorEnvelope "not found")) ∧
    serveBody (serve cfgNoAuth emptyFs reqGetAbc "u") ≠
      some (some (errorEnvelope "file not found")) := by
  refine ⟨by decide, by decide, by decide⟩

/-- C4 (amended): for every request whose path is neither `/upload` nor
under `/files`, whatever its verb, the response is 404 with the JSON body
`{"ok":false,"error":"not found"}` (suppressed, as every body is, on HEAD),
and storage is untouched. -/
theorem claim4_amended (cfg : ServerConfig) (fs : Fs) (r : Request) (uuid : String)
    (h1 : r.urlPath ≠ "/upload") (h2 : strStartsWith r.urlPath "/files" = false) :
    serve cfg fs r uuid = ServeResult.ok
      ⟨404, if r.method = Method.head then none else some (errorEnvelope "not found"),
       none, none, none, none⟩ fs := by
  have hr := routeMatch_none r.method r.urlPath h1 h2
  simp only [serve, hr, dispatch, handleNotFound, jsonResponse]
  by_cases hh : r.method = Method.head <;> simp [stripBody, hh]

/-- C4 witness: a DELETE to `/abc`. -/
theorem claim4_witness :
    serve cfgNoAuth emptyFs ⟨Method.delete, "/abc", "", "", "", [], "", ⟨[], 0⟩⟩ "u" =
      ServeResult.ok ⟨404, some (errorEnvelope "not found"), none, none, none, none⟩
        emptyFs := by
  have h := claim4_amended cfgNoAuth emptyFs
    ⟨Method.delete, "/abc", "", "", "", [], "", ⟨[], 0⟩⟩ "u" (by decide) (by decide)
  simpa using h

/-! ## Claim C5 -/

/-- An OPTIONS request to the unrouted path `/abc` without a token. -/
def reqOptAbc : Request := ⟨Method.options, "/abc", "", "", "", [], "", ⟨[], 0⟩⟩

/-- A POST to a `/files` path bearing only the read-only token. -/
def reqPostFilesRo : Request :=
  ⟨Method.post, "/files/foo.txt", "Bearer read-only-token", "", "", [], "x", ⟨[1], 0⟩⟩

/-- C5, counterexample. The claim's universal parts fail off the routed
endpoints, where gorilla/mux serves its NotFound/MethodNotAllowed handlers
without running the middleware: with auth enabled, OPTIONS `/abc` answers
404 (claim: every OPTIONS answers 204), a token-free GET `/abc` answers 404
(claim: every token-free non-OPTIONS request answers 401), and a POST to
`/files/foo.txt` bearing only a read-only token answers 405 (claim: every
POST with only a read-only token answers 401). -/
theorem claim5_counterexample :
    serveStatus (serve cfgAuth fsWithTest reqOptAbc "u") = some 404 ∧
    serveStatus (serve cfgAuth fsWithTest reqOptAbc "u") ≠ some 204 ∧
    serveStatus (serve cfgAuth fsWithTest reqGetAbc "u") = some 404 ∧
    serveStatus (serve cfgAuth fsWithTest reqGetAbc "u") ≠ some 401 ∧
    serveStatus (serve cfgAuth fsWithTest reqPostFilesRo "u") = some 405 ∧
    serveStatus (serve cfgAuth fsWithTest reqPostFilesRo "u") ≠ some 401 := by
  refine ⟨by decide, by decide, by decide, by decide, by decide, by decide⟩

/-- C5 (amended): with authentication enabled, for requests that match a
registered route: a POST to `/upload` or PUT to a `/files` path bearing
only a read-only token answers 401; the same read-only token on GET or HEAD
of an existing file answers 200; a non-OPTIONS request matching a route with
no token at all answers 401; and OPTIONS to `/upload` or a `/files` path
answers 204 with no body whether its token is valid, invalid, or absent.
(Requests that match no route — wrong path, or wrong verb for the path —
bypass the middleware and answer 404 or 405 instead.) -/
theorem claim5_amended (cfg : ServerConfig) (fs : Fs) (hauth : cfg.enableAuth = true) :
    (∀ (r : Request) (uuid t : String),
      ((r.method = Method.post ∧ r.urlPath = "/upload") ∨
       (r.method = Method.put ∧ strStartsWith r.urlPath "/files" = true)) →
      r.authHeader ≠ "" → trimBearer r.authHeader = t →
      t ∉ cfg.readWriteTokens →
      serve cfg fs r uuid =
        ServeResult.ok ⟨401, some (errorEnvelope "unauthorized"), none, none, none, none⟩
          fs) ∧
    (∀ (r : Request) (uuid t p : String) (c : List Nat),
      (r.method = Method.get ∨ r.method = Method.head) →
      strStartsWith r.urlPath "/files" = true →
      getPathFromURL r.urlPath = p → p ≠ "" → cleanPath p ≠ [] →
      fs (cleanPath p) = some (FsEntry.file c) →
      r.authHeader ≠ "" → trimBearer r.authHeader = t → t ≠ "" →
      t ∈ cfg.readOnlyTokens →
      ∃ resp : Response, serve cfg fs r uuid = ServeResult.ok resp fs ∧
        resp.status = 200) ∧
    (∀ (r : Request) (uuid : String),
      routeMatch r.method r.urlPath ≠ Routed.notFound →
      routeMatch r.method r.urlPath ≠ Routed.methodNotAllowed →
      r.method ≠ Method.options →
      r.authHeader = "" → r.queryToken = "" →
      ∃ resp : Response, serve cfg fs r uuid = ServeResult.ok resp fs ∧
        resp.status = 401) ∧
    (∀ (r : Request) (uuid : String),
      r.method = Method.options →
      (r.urlPath = "/upload" ∨ strStartsWith r.urlPath "/files" = true) →
      serve cfg fs r uuid = ServeResult.ok (handleOptions r) fs ∧
        (handleOptions r).status = 204 ∧ (handleOptions r).jsonBody = none) := by
  refine ⟨?_, ?_, ?_, ?_⟩
  · intro r uuid t hroute hh ht hnotin
    have hmw : authenticationMiddleware cfg r = AuthResult.unauthorized := by
      apply authMW_reject_write cfg r t ?_ hh ht hnotin
      rcases hroute with ⟨hm, _⟩ | ⟨hm, _⟩
      · exact Or.inl hm
      · exact Or.inr hm
    rcases hroute with ⟨hm, hu⟩ | ⟨hm, hu⟩
    · have hr : routeMatch r.method r.urlPath = Routed.post := by
        rw [hm, hu]
        rfl
      simp only [serve, hr, hauth, if_true]
      simp [hmw, stripBody, writeUnauthorized, hm]
    · have hr : routeMatch r.method r.urlPath = Routed.put := by
        rw [routeMatch_files _ _ hu, hm]
        rfl
      simp only [serve, hr, hauth, if_true]
      simp [hmw, stripBody, writeUnauthorized, hm]
  · intro r uuid t p c hgh hu hp hpne hcp hfs hh ht htne hro
    have hmo : r.method ≠ Method.options := by
      rcases hgh with hm | hm <;> simp [hm]
    have hr : routeMatch r.method r.urlPath = Routed.getHead := by
      rcases hgh with hm | hm <;> simp [routeMatch_files _ _ hu, hm]
    have hmw := authMW_pass cfg r t hmo hh ht htne (Or.inr ⟨hgh, hro⟩)
    have hget : (handleGet fs { r with authHeader := "", queryToken := "" }).status =
        200 := by
      simp only [handleGet, hp, if_neg hpne, lookupFs_ne_nil fs (cleanPath p) hcp, hfs]
    refine ⟨stripBody r.method (handleGet fs { r with authHeader := "", queryToken := "" }),
      ?_, ?_⟩
    · simp [serve, hr, hauth, hmw, dispatch]
    · rw [stripBody_status, hget]
  · intro r uuid hr1 hr2 hmo hh hq
    have hmw := authMW_noToken cfg r hmo hh hq
    refine ⟨stripBody r.method (writeUnauthorized r), ?_, ?_⟩
    · rcases hr : routeMatch r.method r.urlPath with _ | _ | _ | _ | _ | _
      · simp [serve, hr, hauth, hmw]
      · simp [serve, hr, hauth, hmw]
      · simp [serve, hr, hauth, hmw]
      · simp [serve, hr, hauth, hmw]
      · exact absurd hr hr1
      · exact absurd hr hr2
    · rw [stripBody_status]
      rfl
  · intro r uuid hm hpath
    have hr : routeMatch r.method r.urlPath = Routed.options := by
      rcases hpath with hu | hu
      · rw [hm, hu]
        rfl
      · simp [routeMatch_files _ _ hu, hm]
    have hmw : authenticationMiddleware cfg r = AuthResult.proceed r := by
      simp [authenticationMiddleware, hm]
    refine ⟨?_, rfl, rfl⟩
    have hnh : r.method ≠ Method.head := by simp [hm]
    simp [serve, hr, hauth, hmw, dispatch, stripBody, hnh]

/-- C5 witness: the four amended parts at concrete requests against
`cfgAuth` — read-only token on POST `/upload`, read-only token on GET of the
existing `/files/foo/bar.txt`, a token-free PUT, and OPTIONS with a garbage
token. -/
theorem claim5_witness :
    serve cfgAuth fsWithTest
      ⟨Method.post, "/upload", "Bearer read-only-token", "", "", [], "a", ⟨[1], 0⟩⟩ "u" =
      ServeResult.ok ⟨401, some (errorEnvelope "unauthorized"), none, none, none, none⟩
        fsWithTest ∧
    (∃ resp : Response, serve cfgAuth fsWithTest
      ⟨Method.get, "/files/foo/bar.txt", "Bearer read-only-token", "", "", [], "", ⟨[], 0⟩⟩
      "u" = ServeResult.ok resp fsWithTest ∧ resp.status = 200) ∧
    (∃ resp : Response, serve cfgAuth fsWithTest
      ⟨Method.put, "/files/x.txt", "", "", "", [], "x", ⟨[1], 0⟩⟩ "u" =
      ServeResult.ok resp fsWithTest ∧ resp.status = 401) ∧
    serve cfgAuth fsWithTest
      ⟨Method.options, "/files/foo/bar.txt", "Bearer garbage", "", "", [], "", ⟨[], 0⟩⟩
      "u" = ServeResult.ok (handleOptions
        ⟨Method.options, "/files/foo/bar.txt", "Bearer garbage", "", "", [], "", ⟨[], 0⟩⟩)
        fsWithTest := by
  obtain ⟨h1, h2, h3, h4⟩ := claim5_amended cfgAuth fsWithTest (by decide)
  refine ⟨?_, ?_, ?_, ?_⟩
  · exact h1 ⟨Method.post, "/upload", "Bearer read-only-token", "", "", [], "a", ⟨[1], 0⟩⟩
      "u" "read-only-token" (Or.inl ⟨rfl, rfl⟩) (by decide) (by decide) (by decide)
  · exact h2 ⟨Method.get, "/files/foo/bar.txt", "Bearer read-only-token", "", "", [], "",
      ⟨[], 0⟩⟩ "u" "read-only-token" "foo/bar.txt" [104, 105] (Or.inl rfl) (by decide)
      (by decide) (by decide) (by decide) (by decide) (by decide) (by decide) (by decide)
      (by decide)
  · exact h3 ⟨Method.put, "/files/x.txt", "", "", "", [], "x", ⟨[1], 0⟩⟩ "u"
      (by decide) (by decide) (by decide) (by decide) (by decide)
  · exact (h4 ⟨Method.options, "/files/foo/bar.txt", "Bearer garbage", "", "", [], "",
      ⟨[], 0⟩⟩ "u" rfl (Or.inr (by decide))).1

/-! ## Claim C6 -/

/-- C6: token extraction and stripping. (1) When the Authorization header is
present (nonempty), the middleware's verdict is independent of the `token`
query parameter — the token is taken from the header. (2) When the header is
absent and a `token` query parameter is present, that parameter alone
decides the verdict. (3) Every accepted non-OPTIONS request is forwarded
with the Authorization header and the `token` query parameter removed.
(4) Two accepted requests that agree after removing those two credential
fields — differing only in how the credential was supplied — are forwarded
as the same credential-free request. -/
theorem claim6_credential_handling :
    (∀ (cfg : ServerConfig) (r : Request) (q' : String),
      r.method ≠ Method.options → r.authHeader ≠ "" →
      authenticationMiddleware cfg r =
        authenticationMiddleware cfg { r with queryToken := q' }) ∧
    (∀ (cfg : ServerConfig) (r : Request),
      r.method ≠ Method.options → r.authHeader = "" → r.queryToken ≠ "" →
      authenticationMiddleware cfg r =
        (if r.queryToken ∈ cfg.readWriteTokens ++
            (if r.method = Method.get ∨ r.method = Method.head then cfg.readOnlyTokens
             else []) then
          AuthResult.proceed { r with authHeader := "", queryToken := "" }
        else AuthResult.unauthorized)) ∧
    (∀ (cfg : ServerConfig) (r r' : Request),
      r.method ≠ Method.options →
      authenticationMiddleware cfg r = AuthResult.proceed r' →
      r'.authHeader = "" ∧ r'.queryToken = "") ∧
    (∀ (cfg : ServerConfig) (r₁ r₂ r₁' r₂' : Request),
      r₁.method ≠ Method.options → r₂.method ≠ Method.options →
      authenticationMiddleware cfg r₁ = AuthResult.proceed r₁' →
      authenticationMiddleware cfg r₂ = AuthResult.proceed r₂' →
      ({ r₁ with authHeader := "", queryToken := "" } : Request) =
        { r₂ with authHeader := "", queryToken := "" } →
      r₁' = r₂') := by
  refine ⟨?_, ?_, ?_, ?_⟩
  · intro cfg r q' hm hh
    obtain ⟨m, up, ah, qt, qo, oq, fn, ff⟩ := r
    simp only [authenticationMiddleware] at *
    simp [hm, hh]
  · intro cfg r hm hh hq
    obtain ⟨m, up, ah, qt, qo, oq, fn, ff⟩ := r
    simp only at hh hq
    subst hh
    simp [authenticationMiddleware, hm, hq]
  · intro cfg r r' hm h
    rw [authMW_proceed_eq cfg r r' hm h]
    exact ⟨rfl, rfl⟩
  · intro cfg r₁ r₂ r₁' r₂' hm1 hm2 h1 h2 heq
    rw [authMW_proceed_eq cfg r₁ r₁' hm1 h1, authMW_proceed_eq cfg r₂ r₂' hm2 h2]
    exact heq

/-- A GET carrying the read-write token in the Authorization header. -/
def reqTokHeader : Request :=
  ⟨Method.get, "/files/foo/bar.txt", "Bearer read-write-token", "", "", [("a", "b")], "",
   ⟨[], 0⟩⟩

/-- The same GET carrying the read-write token in the `token` query
parameter instead. -/
def reqTokQuery : Request :=
  ⟨Method.get, "/files/foo/bar.txt", "", "read-write-token", "", [("a", "b")], "",
   ⟨[], 0⟩⟩

/-- The common credential-free form of the two requests above. -/
def reqTokStripped : Request :=
  ⟨Method.get, "/files/foo/bar.txt", "", "", "", [("a", "b")], "", ⟨[], 0⟩⟩

/-- C6 witness: at concrete requests — the verdict on a header-carrying GET
ignores the query token; the query-carrying GET is accepted on the query
token alone; and both requests are forwarded as the identical stripped
request. -/
theorem claim6_witness :
    authenticationMiddleware cfgAuth reqTokHeader =
      authenticationMiddleware cfgAuth { reqTokHeader with queryToken := "zzz" } ∧
    authenticationMiddleware cfgAuth reqTokQuery = AuthResult.proceed reqTokStripped ∧
    reqTokStripped.authHeader = "" ∧ reqTokStripped.queryToken = "" ∧
    reqTokStripped = reqTokStripped := by
  obtain ⟨p1, p2, p3, p4⟩ := claim6_credential_handling
  refine ⟨p1 cfgAuth reqTokHeader "zzz" (by decide) (by decide), ?_, ?_, ?_,
    p4 cfgAuth reqTokHeader reqTokQuery reqTokStripped reqTokStripped (by decide)
      (by decide) (by decide) (by decide) (by decide)⟩
  · rw [p2 cfgAuth reqTokQuery (by decide) (by decide) (by decide)]
    decide
  · exact (p3 cfgAuth reqTokQuery reqTokStripped (by decide) (by decide)).1
  · exact (p3 cfgAuth reqTokQuery reqTokStripped (by decide) (by decide)).2

/-! ## Claim C7 -/

/-- A successful upload reports `renderDestPath` of its resolved
destination. -/
theorem processUpload_ok_dest (cfg : ServerConfig) (fs : Fs) (r : Request)
    (uuid path0 path : String) (file1 : FormFile) (d : String) (fs₃ : Fs)
    (hres : resolveDest cfg r.formFile r.formFilename uuid path0 = some (path, file1))
    (h : processUpload cfg fs r uuid path0 = some (UploadOutcome.ok d fs₃)) :
    d = renderDestPath path := by
  simp only [processUpload, hres] at h
  split at h
  · simp at h
  · split at h
    · simp at h
    · split at h
      · simp at h
      · split at h
        · simp only [Option.some.injEq, UploadOutcome.ok.injEq] at h
          exact h.1.symm
        · simp at h

/-- C7: a PUT to the nested `/files/a/b/c.txt` whose parents are absent
creates the directories `a` and `a/b` and the file, and answers 201 with
`{"ok":true,"path":"/files/a/b/c.txt"}`; moreover every successful upload's
returned path is `"/files/" ++ name` — prefixed with `/files`, one leading
slash — both for PUT destinations (not themselves starting with a slash)
and for every POST destination. -/
theorem claim7_put_nested (cfg : ServerConfig) (fs : Fs) (r : Request) (uuid : String)
    (hauth : cfg.enableAuth = false)
    (hm : r.method = Method.put)
    (hu : r.urlPath = "/files/a/b/c.txt")
    (hlen : r.formFile.content.length ≤ cfg.maxUploadSize)
    (hpos : r.formFile.pos = 0)
    (ha : fs ["a"] = none) (hab : fs ["a", "b"] = none)
    (habc : fs ["a", "b", "c.txt"] = none) :
    (∃ fs' : Fs,
      serve cfg fs r uuid = ServeResult.ok
        (jsonResponse 201 (successEnvelope "/files/a/b/c.txt")) fs' ∧
      fs' ["a"] = some FsEntry.dir ∧ fs' ["a", "b"] = some FsEntry.dir ∧
      fs' ["a", "b", "c.txt"] = some (FsEntry.file r.formFile.content)) ∧
    (∀ (cfg' : ServerConfig) (fs₂ : Fs) (r' : Request) (uuid' fn d : String) (fs₃ : Fs),
      fn ≠ "" → strStartsWith fn "/" = false →
      processUpload cfg' fs₂ r' uuid' fn = some (UploadOutcome.ok d fs₃) →
      d = "/files/" ++ fn) ∧
    (∀ (cfg' : ServerConfig) (fs₂ : Fs) (r' : Request) (uuid' d : String) (fs₃ : Fs),
      processUpload cfg' fs₂ r' uuid' "" = some (UploadOutcome.ok d fs₃) →
      ∃ name : String, d = "/files/" ++ name) := by
  refine ⟨?_, ?_, ?_⟩
  · have hclean : cleanPath "a/b/c.txt" = ["a", "b", "c.txt"] := by decide
    have hres : resolveDest cfg r.formFile r.formFilename uuid "a/b/c.txt" =
        some ("a/b/c.txt", r.formFile) := by
      simp [resolveDest]
    obtain ⟨fs1, hmade, hframe, heq⟩ := processUpload_write cfg fs r uuid
      "a/b/c.txt" "a/b/c.txt" r.formFile hres
      (by simp [aferoExists, lookupFs, hclean, habc])
      (by simp [hclean])
      (by
        have hdl0 : (cleanPath "a/b/c.txt").dropLast = ["a", "b"] := by decide
        intro m hmlt
        rw [hdl0] at hmlt ⊢
        simp only [List.length_cons, List.length_nil] at hmlt
        match m with
        | 0 => simp [isFileAt, ha]
        | 1 => simp [isFileAt, hab]
        | m + 2 => omega)
      (by rw [hclean, habc]; simp)
    rw [hpos, List.drop_zero, if_pos hlen] at heq
    have hdl : (cleanPath "a/b/c.txt").dropLast = ["a", "b"] := by decide
    have hd1 : fs1 ["a"] = some FsEntry.dir := by
      have h0 := hmade 0 (by rw [hdl]; decide)
      rw [hdl] at h0
      simpa using h0
    have hd2 : fs1 ["a", "b"] = some FsEntry.dir := by
      have h0 := hmade 1 (by rw [hdl]; decide)
      rw [hdl] at h0
      simpa using h0
    refine ⟨updateFs fs1 (cleanPath "a/b/c.txt") (FsEntry.file r.formFile.content),
      ?_, ?_, ?_, ?_⟩
    · have hr : routeMatch r.method r.urlPath = Routed.put := by
        rw [hm, hu]
        rfl
      have hget : getPathFromURL r.urlPath = "a/b/c.txt" := by
        rw [hu]
        decide
      have hput : handlePut cfg fs r uuid = some
          (jsonResponse 201 (successEnvelope "/files/a/b/c.txt"),
           updateFs fs1 (cleanPath "a/b/c.txt") (FsEntry.file r.formFile.content)) := by
        simp only [handlePut, hget]
        rw [if_neg (by decide)]
        rw [heq]
        rfl
      simp only [serve, hr, hauth, Bool.false_eq_true, if_false, dispatch, hput]
      have hnh : r.method ≠ Method.head := by simp [hm]
      simp [stripBody, hnh]
    · rw [hclean]
      rw [updateFs_other fs1 _ _ _ (by decide)]
      exact hd1
    · rw [hclean]
      rw [updateFs_other fs1 _ _ _ (by decide)]
      exact hd2
    · rw [hclean]
      exact updateFs_self _ _ _
  · intro cfg' fs₂ r' uuid' fn d fs₃ hfn hns h
    have hres : resolveDest cfg' r'.formFile r'.formFilename uuid' fn =
        some (fn, r'.formFile) := by
      simp [resolveDest, hfn]
    rw [processUpload_ok_dest cfg' fs₂ r' uuid' fn fn r'.formFile d fs₃ hres h]
    unfold renderDestPath
    rw [if_neg (by simp [hns])]
    rfl
  · intro cfg' fs₂ r' uuid' d fs₃ h
    by_cases hfn : r'.formFilename = ""
    · cases hstr : ResolveFileNamingStrategy cfg'.fileNamingStrategy with
      | none =>
        rw [show processUpload cfg' fs₂ r' uuid' "" = none from by
          simp [processUpload, resolveDest, hfn, hstr]] at h
        exact absurd h (by simp)
      | some namer =>
        have hres : resolveDest cfg' r'.formFile r'.formFilename uuid' "" =
            some ("/" ++ (namer r'.formFile uuid').1, (namer r'.formFile uuid').2) := by
          simp [resolveDest, hfn, hstr]
        rw [processUpload_ok_dest cfg' fs₂ r' uuid' ""
          ("/" ++ (namer r'.formFile uuid').1) (namer r'.formFile uuid').2 d fs₃ hres h]
        unfold renderDestPath
        split
        · exact ⟨(namer r'.formFile uuid').1, rfl⟩
        · exact ⟨"/" ++ (namer r'.formFile uuid').1, rfl⟩
    · have hres : resolveDest cfg' r'.formFile r'.formFilename uuid' "" =
          some ("/" ++ r'.formFilename, r'.formFile) := by
        simp [resolveDest, hfn]
      rw [processUpload_ok_dest cfg' fs₂ r' uuid' "" ("/" ++ r'.formFilename)
        r'.formFile d fs₃ hres h]
      unfold renderDestPath
      split
      · exact ⟨r'.formFilename, rfl⟩
      · exact ⟨"/" ++ r'.formFilename, rfl⟩

/-- A PUT of the bytes `[1, 2]` to the nested path `/files/a/b/c.txt`. -/
def reqPutNested : Request :=
  ⟨Method.put, "/files/a/b/c.txt", "", "", "", [], "w.txt", ⟨[1, 2], 0⟩⟩

/-- C7 witness: the nested PUT against an empty document root. -/
theorem claim7_witness :
    ∃ fs' : Fs,
      serve cfgNoAuth emptyFs reqPutNested "u" = ServeResult.ok
        (jsonResponse 201 (successEnvelope "/files/a/b/c.txt")) fs' ∧
      fs' ["a"] = some FsEntry.dir ∧ fs' ["a", "b"] = some FsEntry.dir ∧
      fs' ["a", "b", "c.txt"] = some (FsEntry.file reqPutNested.formFile.content) :=
  (claim7_put_nested cfgNoAuth emptyFs reqPutNested "u" (by decide) (by decide)
    (by decide) (by decide) (by decide) rfl rfl rfl).1

/-! ## Claim C8 -/

/-- Reading an existing regular file. -/
theorem handleGet_file (fs : Fs) (r : Request) (n : String) (c : List Nat)
    (hp : getPathFromURL r.urlPath = n) (hn : n ≠ "") (hcp : cleanPath n ≠ [])
    (hfs : fs (cleanPath n) = some (FsEntry.file c)) :
    handleGet fs r = ⟨200, none, some (if r.method = Method.head then [] else c),
      some c.length, none, none⟩ := by
  simp only [handleGet, hp, if_neg hn, lookupFs_ne_nil fs _ hcp, hfs]

/-- C8: the round-trip law. For any byte sequence within the size limit and
any valid fresh relative name `n`, an authorized (read-write token) PUT to
`/files/n` answers 201 with path `/files/n` and stores exactly the uploaded
bytes; a subsequent authorized GET of the same URL answers 200 with exactly
those bytes and content-length equal to their count, and a HEAD answers 200
with an empty body and the same content-length. -/
theorem claim8_roundtrip (cfg : ServerConfig) (fs : Fs)
    (uuid₁ uuid₂ uuid₃ t hdr u n ow fn : String)
    (oq oq₂ oq₃ : List (String × String)) (content : List Nat)
    (hauth : cfg.enableAuth = true)
    (ht : t ∈ cfg.readWriteTokens) (htne : t ≠ "")
    (hhdr : hdr ≠ "") (htb : trimBearer hdr = t)
    (hu : strStartsWith u "/files" = true)
    (hp : getPathFromURL u = n) (hn : n ≠ "")
    (hns : strStartsWith n "/" = false)
    (hcp : cleanPath n ≠ [])
    (hfree : fs (cleanPath n) = none)
    (hpar : ∀ m : Nat, m < (cleanPath n).dropLast.length →
      ¬ isFileAt fs ((cleanPath n).dropLast.take (m + 1)))
    (hsize : content.length ≤ cfg.maxUploadSize) :
    ∃ fs' : Fs,
      serve cfg fs ⟨Method.put, u, hdr, "", ow, oq, fn, ⟨content, 0⟩⟩ uuid₁ =
        ServeResult.ok (jsonResponse 201 (successEnvelope ("/files/" ++ n))) fs' ∧
      fs' (cleanPath n) = some (FsEntry.file content) ∧
      serve cfg fs' ⟨Method.get, u, hdr, "", "", oq₂, "", ⟨[], 0⟩⟩ uuid₂ =
        ServeResult.ok ⟨200, none, some content, some content.length, none, none⟩ fs' ∧
      serve cfg fs' ⟨Method.head, u, hdr, "", "", oq₃, "", ⟨[], 0⟩⟩ uuid₃ =
        ServeResult.ok ⟨200, none, none, some content.length, none, none⟩ fs' := by
  have hrd : renderDestPath n = "/files/" ++ n := by
    unfold renderDestPath
    rw [if_neg (by simp [hns])]
    rfl
  have hres : resolveDest cfg (⟨content, 0⟩ : FormFile) fn uuid₁ n =
      some (n, ⟨content, 0⟩) := by
    simp [resolveDest, hn]
  have hnc : (aferoExists fs n && !parseBoolishValue ow) = false := by
    simp [aferoExists, lookupFs_ne_nil fs (cleanPath n) hcp, hfree]
  obtain ⟨fs1, hmade, hframe, heq⟩ := processUpload_write cfg fs
    ⟨Method.put, u, "", "", ow, oq, fn, ⟨content, 0⟩⟩ uuid₁ n n ⟨content, 0⟩
    hres hnc hcp hpar (by rw [hfree]; simp)
  dsimp only at heq
  rw [if_pos (by simpa using hsize), List.drop_zero] at heq
  refine ⟨updateFs fs1 (cleanPath n) (FsEntry.file content), ?_, ?_, ?_, ?_⟩
  · have hr : routeMatch Method.put u = Routed.put := by
      simp [routeMatch_files _ _ hu]
    have hmw := authMW_pass cfg ⟨Method.put, u, hdr, "", ow, oq, fn, ⟨content, 0⟩⟩ t
      (by simp) hhdr htb htne (Or.inl ht)
    have hput : handlePut cfg fs ⟨Method.put, u, "", "", ow, oq, fn, ⟨content, 0⟩⟩ uuid₁ =
        some (jsonResponse 201 (successEnvelope ("/files/" ++ n)),
          updateFs fs1 (cleanPath n) (FsEntry.file content)) := by
      simp only [handlePut, hp, if_neg hn, heq, hrd]
    simp only [serve, hr, hauth, if_true, hmw, dispatch]
    simp only [hput]
    simp [stripBody]
  · exact updateFs_self _ _ _
  · have hr : routeMatch Method.get u = Routed.getHead := by
      simp [routeMatch_files _ _ hu]
    have hmw := authMW_pass cfg ⟨Method.get, u, hdr, "", "", oq₂, "", ⟨[], 0⟩⟩ t
      (by simp) hhdr htb htne (Or.inl ht)
    have hget := handleGet_file
      (updateFs fs1 (cleanPath n) (FsEntry.file content))
      ⟨Method.get, u, "", "", "", oq₂, "", ⟨[], 0⟩⟩ n content
      hp hn hcp (updateFs_self _ _ _)
    simp only [serve, hr, hauth, if_true, hmw, dispatch]
    simp only [hget]
    simp [stripBody]
  · have hr : routeMatch Method.head u = Routed.getHead := by
      simp [routeMatch_files _ _ hu]
    have hmw := authMW_pass cfg ⟨Method.head, u, hdr, "", "", oq₃, "", ⟨[], 0⟩⟩ t
      (by simp) hhdr htb htne (Or.inl ht)
    have hget := handleGet_file
      (updateFs fs1 (cleanPath n) (FsEntry.file content))
      ⟨Method.head, u, "", "", "", oq₃, "", ⟨[], 0⟩⟩ n content
      hp hn hcp (updateFs_self _ _ _)
    simp only [serve, hr, hauth, if_true, hmw, dispatch]
    simp only [hget]
    simp [stripBody]

/-- C8 witness: PUT, GET and HEAD of `/files/dir/file.txt` with the
read-write token against an empty document root. -/
theorem claim8_witness :
    ∃ fs' : Fs,
      serve cfgAuth emptyFs ⟨Method.put, "/files/dir/file.txt",
          "Bearer read-write-token", "", "", [], "f.txt", ⟨[1, 2, 3], 0⟩⟩ "u1" =
        ServeResult.ok (jsonResponse 201 (successEnvelope "/files/dir/file.txt")) fs' ∧
      fs' (cleanPath "dir/file.txt") = some (FsEntry.file [1, 2, 3]) ∧
      serve cfgAuth fs' ⟨Method.get, "/files/dir/file.txt",
          "Bearer read-write-token", "", "", [], "", ⟨[], 0⟩⟩ "u2" =
        ServeResult.ok ⟨200, none, some [1, 2, 3], some 3, none, none⟩ fs' ∧
      serve cfgAuth fs' ⟨Method.head, "/files/dir/file.txt",
          "Bearer read-write-token", "", "", [], "", ⟨[], 0⟩⟩ "u3" =
        ServeResult.ok ⟨200, none, none, some 3, none, none⟩ fs' := by
  have h := claim8_roundtrip cfgAuth emptyFs "u1" "u2" "u3" "read-write-token"
    "Bearer read-write-token" "/files/dir/file.txt" "dir/file.txt" "" "f.txt"
    [] [] [] [1, 2, 3] (by decide) (by decide) (by decide) (by decide) (by decide)
    (by decide) (by decide) (by decide) (by decide) (by decide) (by decide)
    (by
      intro m hmlt
      rw [show (cleanPath "dir/file.txt").dropLast = ["dir"] from by decide] at hmlt ⊢
      simp only [List.length_cons, List.length_nil] at hmlt
      match m with
      | 0 => simp [isFileAt, emptyFs]
      | m + 1 => omega)
    (by decide)
  simpa using h

/-! ## Claim C9 -/

/-- A POST aimed at a `/files` path (an unrouted verb for that prefix). -/
def reqPostFiles : Request :=
  ⟨Method.post, "/files/foo.txt", "", "", "", [], "x", ⟨[1], 0⟩⟩

/-- C9, counterexample. The claim says the 405 response for `/files/*`
names GET, HEAD and PUT in the Allow header; `handleMethodNotAllowed`
actually writes `Allow: GET, PUT`, without HEAD. -/
theorem claim9_counterexample :
    serveStatus (serve cfgNoAuth fsWithTest reqPostFiles "u") = some 405 ∧
    serveAllow (serve cfgNoAuth fsWithTest reqPostFiles "u") = some (some "GET, PUT") ∧
    serveAllow (serve cfgNoAuth fsWithTest reqPostFiles "u") ≠
      some (some "GET, HEAD, PUT") := by
  refine ⟨by decide, by decide, by decide⟩

/-- C9 (amended): a request whose verb is not routed for its matched path
prefix answers 405 with an error envelope naming the rejected method and the
endpoint; the Allow header names `POST` for `/upload` and `GET, PUT` —
without HEAD — for `/files/*`. -/
theorem claim9_amended :
    (∀ (cfg : ServerConfig) (fs : Fs) (r : Request) (uuid : String),
      r.urlPath = "/upload" → r.method ≠ Method.post → r.method ≠ Method.options →
      serve cfg fs r uuid = ServeResult.ok (stripBody r.method
        ⟨405, some (errorEnvelope (methodStr r.method ++ " is not allowed on /upload")),
         none, none, some "POST", none⟩) fs) ∧
    (∀ (cfg : ServerConfig) (fs : Fs) (r : Request) (uuid : String),
      strStartsWith r.urlPath "/files" = true →
      r.method ≠ Method.get → r.method ≠ Method.head → r.method ≠ Method.put →
      r.method ≠ Method.options →
      serve cfg fs r uuid = ServeResult.ok (stripBody r.method
        ⟨405, some (errorEnvelope (methodStr r.method ++ " is not allowed on /files")),
         none, none, some "GET, PUT", none⟩) fs) := by
  constructor
  · intro cfg fs r uuid hu hm1 hm2
    have hr : routeMatch r.method r.urlPath = Routed.methodNotAllowed := by
      rw [hu, routeMatch_upload, if_neg hm1, if_neg hm2]
    have hmna : handleMethodNotAllowed r =
        ⟨405, some (errorEnvelope (methodStr r.method ++ " is not allowed on /upload")),
         none, none, some "POST", none⟩ := by
      simp [handleMethodNotAllowed, hu, String.append_assoc]
    simp only [serve, hr, dispatch, hmna]
  · intro cfg fs r uuid hf hm1 hm2 hm3 hm4
    have hune : r.urlPath ≠ "/upload" := by
      intro he
      rw [he] at hf
      exact absurd hf (by decide)
    have hr : routeMatch r.method r.urlPath = Routed.methodNotAllowed := by
      rw [routeMatch_files _ _ hf]
      rw [if_neg (by simp [hm1, hm2]), if_neg hm3, if_neg hm4]
    have hmna : handleMethodNotAllowed r =
        ⟨405, some (errorEnvelope (methodStr r.method ++ " is not allowed on /files")),
         none, none, some "GET, PUT", none⟩ := by
      simp [handleMethodNotAllowed, hune, hf, String.append_assoc]
    simp only [serve, hr, dispatch, hmna]

/-- C9 witness: a DELETE to `/upload` and a POST to `/files/foo.txt`. -/
theorem claim9_witness :
    serve cfgNoAuth fsWithTest ⟨Method.delete, "/upload", "", "", "", [], "", ⟨[], 0⟩⟩
      "u" = ServeResult.ok
        ⟨405, some (errorEnvelope "DELETE is not allowed on /upload"),
         none, none, some "POST", none⟩ fsWithTest ∧
    serve cfgNoAuth fsWithTest reqPostFiles "u" = ServeResult.ok
      ⟨405, some (errorEnvelope "POST is not allowed on /files"),
       none, none, some "GET, PUT", none⟩ fsWithTest := by
  constructor
  · have h := claim9_amended.1 cfgNoAuth fsWithTest
      ⟨Method.delete, "/upload", "", "", "", [], "", ⟨[], 0⟩⟩ "u" rfl
      (by decide) (by decide)
    simpa [stripBody, methodStr] using h
  · have h := claim9_amended.2 cfgNoAuth fsWithTest reqPostFiles "u" (by decide)
      (by decide) (by decide) (by decide) (by decide)
    simpa [stripBody, methodStr] using h

/-! ## Claim C10 -/

/-- C10: `ResolveFileNamingStrategy` yields a strategy exactly for the empty
name (the default, which is `UUIDStrategy`) and for names whose lowercase
form is `uuid` or `sha256`; every other configured name resolves to Go's
`nil` function value, and a POST whose multipart filename is empty then
invokes it unguarded — the request crashes. -/
theorem claim10_resolve :
    (∀ name : String, (ResolveFileNamingStrategy name).isSome = true ↔
      (name = "" ∨ strToLower name = "uuid" ∨ strToLower name = "sha256")) ∧
    ResolveFileNamingStrategy "" = some UUIDStrategy ∧
    (∀ (cfg : ServerConfig) (fs : Fs) (r : Request) (uuid : String),
      cfg.enableAuth = false → r.method = Method.post → r.urlPath = "/upload" →
      r.formFilename = "" →
      ResolveFileNamingStrategy cfg.fileNamingStrategy = none →
      serve cfg fs r uuid = ServeResult.crash) := by
  refine ⟨?_, rfl, ?_⟩
  · intro name
    by_cases h0 : name = ""
    · simp [ResolveFileNamingStrategy, h0]
    · rw [ResolveFileNamingStrategy, if_neg h0]
      by_cases h1 : strToLower name = "uuid"
      · simp [strategies, List.find?, h1, h0]
      · by_cases h2 : strToLower name = "sha256"
        · simp [strategies, List.find?, h1, h2, h0]
        · simp [strategies, List.find?, h1, h2, h0, Ne.symm h1, Ne.symm h2]
  · intro cfg fs r uuid hauth hm hu hfn hstr
    have hr : routeMatch r.method r.urlPath = Routed.post := by
      rw [hm, hu]
      rfl
    simp [serve, hr, hauth, dispatch, handlePost, processUpload, resolveDest, hfn, hstr]

/-- C10 witness: the unknown name `bogus` resolves to no strategy, and the
POST with an empty multipart filename against that configuration crashes. -/
theorem claim10_witness :
    ((ResolveFileNamingStrategy "bogus").isSome = true ↔
      ("bogus" = "" ∨ strToLower "bogus" = "uuid" ∨ strToLower "bogus" = "sha256")) ∧
    serve cfgBadStrategy emptyFs reqPostNoName "u" = ServeResult.crash := by
  refine ⟨claim10_resolve.1 "bogus", ?_⟩
  exact claim10_resolve.2.2 cfgBadStrategy emptyFs reqPostNoName "u" rfl rfl rfl rfl rfl

end SimpleUpload
